import Mathlib

/-!
Verification development for the FirstChessProject repository
(position.py, pieces.py, board.py, gameengine.py).

The Python source is shallowly embedded: the pandas 8x8 grid becomes a
function from integer (rank, file) cells to optional pieces, Python class
dispatch becomes a `PieceKind` tag, and Python attribute presence of the
dynamically managed `has_moved` attribute is tracked with `Option Bool`
(`none` models the attribute being absent, so that reading it raises
`AttributeError`).  Code paths that can raise Python exceptions are
embedded in `Except PyErr`.  While loops are translated to fuel-indexed
structural recursion with fuel strictly larger than the loop can iterate
on an 8x8 board.
-/

inductive Color
  | white
  | black
deriving DecidableEq

/-- Mirror of `GameEngine._opposite_color`. -/
def opposite_color (c : Color) : Color :=
  match c with
  | .white => .black
  | .black => .white

/-- Python class tags for the `Piece` subclasses in pieces.py. -/
inductive PieceKind
  | pawn
  | king
  | queen
  | bishop
  | knight
  | rook
deriving DecidableEq

/-- Python exceptions that the embedded code can raise. -/
inductive PyErr
  | typeError        -- iterating over the `None` returned by a stub `get_legal_moves`
  | attributeError   -- reading `has_moved` (or `.position`) where the attribute/object is absent
  | promotionError   -- `Exception("Only paws can be promoted!")` in `Board.promote_pawn`
deriving DecidableEq

/-- The `game_winner` field of `GameEngine` ('white', 'black' or 'draw'). -/
inductive GameWinner
  | white
  | black
  | draw
deriving DecidableEq

def winnerOf (c : Color) : GameWinner :=
  match c with
  | .white => .white
  | .black => .black

/-- Mirror of position.py `Position`: a file (`xpos`) / rank (`ypos`) pair.
`on_board` is derived data there, so it is a function here. -/
structure Position where
  xpos : Int
  ypos : Int
deriving DecidableEq

/-- Mirror of `Position.on_board`: `0 < xpos <= 8 and 0 < ypos <= 8`. -/
def Position.on_board (p : Position) : Bool :=
  decide (0 < p.xpos ∧ p.xpos ≤ 8 ∧ 0 < p.ypos ∧ p.ypos ≤ 8)

/-- Mirror of `Position.__add__`: translate by an `(dx, dy)` offset tuple. -/
def Position.add (p : Position) (d : Int × Int) : Position :=
  ⟨p.xpos + d.1, p.ypos + d.2⟩

/-- A piece object.  `has_moved = none` models a Python object on which the
`has_moved` attribute was never set (unmoved `Queen`, `Bishop`, `Knight`). -/
structure Piece where
  kind : PieceKind
  color : Color
  position : Position
  has_moved : Option Bool
deriving DecidableEq

/-- The `has_moved` attribute each `__init__` in pieces.py establishes:
`Pawn`, `King` and `Rook` set `self.has_moved = False`; the other classes
never set the attribute. -/
def initialHasMoved (k : PieceKind) : Option Bool :=
  match k with
  | .pawn | .king | .rook => some false
  | _ => none

/-- Constructing a piece object of class `k` (`Pawn('white', pos)` etc.). -/
def mkPiece (k : PieceKind) (c : Color) (pos : Position) : Piece :=
  { kind := k, color := c, position := pos, has_moved := initialHasMoved k }

/-- Mirror of board.py `Board`: the pandas DataFrame `grid`, accessed as
`grid.loc[ypos, xpos]` (rank first, then file).  Cells outside the 8x8
frame read as empty. -/
structure Board where
  grid : Int → Int → Option Piece

/-- Mirror of `Board.get_piece`: `None` off board, otherwise the cell. -/
def Board.get_piece (b : Board) (pos : Position) : Option Piece :=
  if pos.on_board then b.grid pos.ypos pos.xpos else none

/-- A single DataFrame cell assignment `grid.loc[pos.ypos, pos.xpos] = v`. -/
def Board.set_cell (b : Board) (pos : Position) (v : Option Piece) : Board :=
  ⟨fun y x => if y = pos.ypos ∧ x = pos.xpos then v else b.grid y x⟩

/-- Mirror of `Board.move_piece`: no-op when the start square is empty;
otherwise update the piece's `position` and `has_moved`, clear the start
cell, then write the piece at the end cell (in that order, so a
degenerate `start = end` move keeps the piece). -/
def Board.move_piece (b : Board) (start_pos end_pos : Position) : Board :=
  match b.get_piece start_pos with
  | none => b
  | some p =>
      (b.set_cell start_pos none).set_cell end_pos
        (some { p with position := end_pos, has_moved := some true })

/-- Mirror of `Board.perform_castle`: move the king, then move the rook
inferred from the king's destination file (file 7 means king side). -/
def Board.perform_castle (b : Board) (king_start_pos king_end_pos : Position) : Board :=
  let castling_rank := king_start_pos.ypos
  let b1 := b.move_piece king_start_pos king_end_pos
  if king_end_pos.xpos = 7 then
    b1.move_piece ⟨8, castling_rank⟩ ⟨6, castling_rank⟩
  else
    b1.move_piece ⟨1, castling_rank⟩ ⟨4, castling_rank⟩

/-- Mirror of `Board.promote_pawn`: raise unless the occupant is a pawn;
otherwise construct a fresh piece of the chosen class at the same square
and color, set its `has_moved = True`, and store it in the cell. -/
def Board.promote_pawn (b : Board) (position : Position) (promotion_choice : PieceKind) :
    Except PyErr Board :=
  match b.get_piece position with
  | some p =>
      if p.kind = .pawn then
        .ok (b.set_cell position
          (some { mkPiece promotion_choice p.color position with has_moved := some true }))
      else .error .promotionError
  | none => .error .promotionError

def rng8 : List Int := [1, 2, 3, 4, 5, 6, 7, 8]

/-- Mirror of `Board.deep_copy`'s `_copy_piece` applied over the 8x8 frame.
`_copy_piece` reads `piece_to_copy.has_moved`, which raises
`AttributeError` when the attribute was never set; the successful copy is
a newly constructed piece with the same class, color, position and
`has_moved` value. -/
def Board.deep_copy (b : Board) : Except PyErr Board :=
  if rng8.all (fun y => rng8.all (fun x =>
      match b.grid y x with
      | some p => p.has_moved.isSome
      | none => true)) then
    .ok ⟨fun y x =>
      if (1 ≤ y ∧ y ≤ 8) ∧ (1 ≤ x ∧ x ≤ 8) then
        (b.grid y x).map (fun p =>
          { kind := p.kind, color := p.color, position := p.position,
            has_moved := p.has_moved })
      else none⟩
  else .error .attributeError

/-- The back rank laid out by `Board._setup_pieces` for one color. -/
def backRank (c : Color) (y x : Int) : Option Piece :=
  if x = 1 ∨ x = 8 then some (mkPiece .rook c ⟨x, y⟩)
  else if x = 2 ∨ x = 7 then some (mkPiece .knight c ⟨x, y⟩)
  else if x = 3 ∨ x = 6 then some (mkPiece .bishop c ⟨x, y⟩)
  else if x = 4 then some (mkPiece .queen c ⟨x, y⟩)
  else if x = 5 then some (mkPiece .king c ⟨x, y⟩)
  else none

/-- Mirror of `Board._setup_pieces`: pawns on ranks 2 and 7, the back
ranks on ranks 1 and 8, files 1..8.  (The final `sort_index` call only
affects display order, not `.loc` access.) -/
def initialGrid : Int → Int → Option Piece := fun y x =>
  if 1 ≤ x ∧ x ≤ 8 then
    if y = 7 then some (mkPiece .pawn .black ⟨x, y⟩)
    else if y = 8 then backRank .black y x
    else if y = 2 then some (mkPiece .pawn .white ⟨x, y⟩)
    else if y = 1 then backRank .white y x
    else none
  else none

def initialBoard : Board := ⟨initialGrid⟩

/-- Direction vectors of `Rook.get_legal_moves`. -/
def rookDirections : List (Int × Int) := [(1, 0), (-1, 0), (0, 1), (0, -1)]

/-- Direction vectors of `Bishop.get_legal_moves`. -/
def bishopDirections : List (Int × Int) := [(1, 1), (-1, -1), (1, -1), (-1, 1)]

/-- The `while current_position.on_board` loop shared by
`Rook.get_legal_moves` and `Bishop.get_legal_moves`, for one direction:
record empty squares and keep sliding, record an enemy square and stop,
stop silently on a friendly square.  The `len(legal_moves) > 64` debug
guard breaks out of the loop.  `legal_moves` is the accumulator `acc`,
threaded across directions exactly as in the source.  The loop runs at
most 8 times (the board is 8 wide), so fuel 9 reproduces it exactly. -/
def slideFrom (b : Board) (c : Color) (d : Int × Int) :
    Nat → Position → List Position → List Position
  | 0, _, acc => acc
  | fuel + 1, cur, acc =>
    if cur.on_board then
      if acc.length > 64 then acc
      else
        match b.get_piece cur with
        | none => slideFrom b c d fuel (cur.add d) (acc ++ [cur])
        | some p => if p.color ≠ c then acc ++ [cur] else acc
    else acc

/-- The outer `for direction in allowed_directions` loop of the sliding
move generators; each direction starts one step away from the piece. -/
def slideMoves (b : Board) (c : Color) (pos : Position)
    (dirs : List (Int × Int)) : List Position :=
  dirs.foldl (fun acc d => slideFrom b c d 9 (pos.add d) acc) []

/-- Mirror of `Rook.get_legal_moves`. -/
def rookMoves (b : Board) (c : Color) (pos : Position) : List Position :=
  slideMoves b c pos rookDirections

/-- Mirror of `Bishop.get_legal_moves`. -/
def bishopMoves (b : Board) (c : Color) (pos : Position) : List Position :=
  slideMoves b c pos bishopDirections

/-- Dispatch of `piece.get_legal_moves(board)` on the runtime class.
`Pawn`, `King`, `Queen` and `Knight` have stub bodies (`pass`) that
return Python `None`, embedded as `Option.none`. -/
def pseudoMoves (p : Piece) (b : Board) : Option (List Position) :=
  match p.kind with
  | .rook => some (rookMoves b p.color p.position)
  | .bishop => some (bishopMoves b p.color p.position)
  | _ => none

/-- Knight move offsets tried by `GameEngine._is_in_check`. -/
def knightOffsets : List (Int × Int) :=
  [(2, 1), (-2, 1), (2, -1), (-2, -1), (1, 2), (1, -2), (-1, 2), (-1, -2)]

def straightDirections : List (Int × Int) := [(0, 1), (0, -1), (1, 0), (-1, 0)]

def diagonalDownDirections : List (Int × Int) := [(1, -1), (-1, -1)]

def diagonalUpDirections : List (Int × Int) := [(1, 1), (-1, 1)]

def diagonalDirections : List (Int × Int) :=
  diagonalDownDirections ++ diagonalUpDirections

def allDirections : List (Int × Int) := straightDirections ++ diagonalDirections

/-- The per-direction `while current_pos.on_board` scan of
`GameEngine._is_in_check`.  `cur` is `current_pos` (checked by the loop
condition), `steps` the step counter; each iteration advances one square
and inspects it.  An empty square continues the scan; a friendly piece
stops it.  On a straight direction only a rook or queen threatens.  On a
diagonal a bishop or queen threatens; a pawn at step count exactly 1
threatens when the direction/color pair matches, and otherwise falls
through WITHOUT a break, so the scan continues past it; any other piece
stops the scan.  Fuel 16 exceeds the at most 9 loop iterations. -/
def dirStep (b : Board) (c : Color) (d : Int × Int) :
    Nat → Position → Nat → Bool
  | 0, _, _ => false
  | fuel + 1, cur, steps =>
    if cur.on_board then
      match b.get_piece (cur.add d) with
      | none => dirStep b c d fuel (cur.add d) (steps + 1)
      | some p =>
        if p.color = c then false
        else if d ∈ straightDirections then
          decide (p.kind = .rook ∨ p.kind = .queen)
        else if p.kind = .bishop ∨ p.kind = .queen then true
        else if p.kind = .pawn ∧ steps + 1 = 1 then
          if (d ∈ diagonalUpDirections ∧ c = .white)
              ∨ (d ∈ diagonalDownDirections ∧ c = .black) then true
          else dirStep b c d fuel (cur.add d) (steps + 1)
        else false
    else false

/-- Mirror of `GameEngine._is_in_check`: the knight-offset scan followed
by the ray scan over all eight directions, true as soon as any threat is
found. -/
def is_in_check (c : Color) (b : Board) (king_pos : Position) : Bool :=
  knightOffsets.any (fun d =>
    match b.get_piece (king_pos.add d) with
    | some p => decide (p.kind = .knight ∧ p.color ≠ c)
    | none => false)
  || allDirections.any (fun d => dirStep b c d 16 king_pos 0)

/-- The `GameEngine` state fields used by the embedded methods. -/
structure EngineState where
  board : Board
  current_turn : Color
  moves_count : Nat
  no_action_turns : Nat
  game_winner : Option GameWinner
  white_king_pos : Position
  black_king_pos : Position

/-- The `GameEngine.__init__` state. -/
def initialState : EngineState :=
  { board := initialBoard, current_turn := .white, moves_count := 0,
    no_action_turns := 0, game_winner := none,
    white_king_pos := ⟨5, 1⟩, black_king_pos := ⟨5, 8⟩ }

/-- The post-move king square chosen inside
`GameEngine.get_fully_legal_moves`: the candidate destination for a king,
the cached king location for the piece's color otherwise. -/
def kingSqFor (st : EngineState) (p : Piece) (move : Position) : Position :=
  if p.kind = .king then move
  else if p.color = .white then st.white_king_pos else st.black_king_pos

/-- The `for move in pseudo_legal_moves` loop of
`GameEngine.get_fully_legal_moves`: per candidate, deep-copy the live
board (`AttributeError` propagates), look the piece up on the copy
(`None.position` would raise), simulate the move, and keep the candidate
iff the mover's king square is not in check afterwards. -/
def flmLoop (st : EngineState) (p : Piece) : List Position → Except PyErr (List Position)
  | [] => .ok []
  | move :: rest =>
    match st.board.deep_copy with
    | .error e => .error e
    | .ok hypothetical_board =>
      match hypothetical_board.get_piece p.position with
      | none => .error .attributeError
      | some piece_on_copy =>
        let after := hypothetical_board.move_piece piece_on_copy.position move
        match flmLoop st p rest with
        | .error e => .error e
        | .ok rest' =>
          .ok (if is_in_check p.color after (kingSqFor st p move)
               then rest' else move :: rest')

/-- Mirror of `GameEngine.get_fully_legal_moves`.  When the piece's
`get_legal_moves` stub returns `None`, iterating it raises `TypeError`. -/
def get_fully_legal_moves (st : EngineState) (p : Piece) :
    Except PyErr (List Position) :=
  match pseudoMoves p st.board with
  | none => .error .typeError
  | some pseudo => flmLoop st p pseudo

/-- The claim C1 test: apply one candidate move to a deep copy of the
live board and report the `is_in_check` verdict for the mover's color at
the post-move king square (`none` when the copy or lookup raises). -/
def self_check_after (st : EngineState) (p : Piece) (move : Position) : Option Bool :=
  match st.board.deep_copy with
  | .error _ => none
  | .ok hb =>
    match hb.get_piece p.position with
    | none => none
    | some pc =>
      some (is_in_check p.color (hb.move_piece pc.position move) (kingSqFor st p move))

/-- The Python test `not isinstance(potential_rook, Rook) or
potential_rook.has_moved` of `GameEngine._possible_castles`; reading
`has_moved` on a rook object always succeeds in live states, but the
embedding keeps the `AttributeError` case faithful. -/
def rookDisqualified : Option Piece → Except PyErr Bool
  | none => .ok true
  | some p =>
    if p.kind = .rook then
      match p.has_moved with
      | some m => .ok m
      | none => .error .attributeError
    else .ok true

/-- Mirror of `GameEngine._possible_castles`.  The `for potential_rook in
(potential_king_rook, potential_queen_rook)` loop decides which flag to
clear with the identity test `potential_rook is potential_king_rook`: in
the first iteration that test is always true; in the second it is true
exactly when both corner squares returned the identical object, which in
CPython happens precisely when both are `None` (two distinct piece
objects are never the same object).  The `king_empty_needed_files` /
`king_safe_needed_files` locals of the source are dead code and omitted. -/
def possible_castles (st : EngineState) : Except PyErr (Bool × Bool) :=
  let king_pos := if st.current_turn = .white then st.white_king_pos else st.black_king_pos
  let castle_rank : Int := if st.current_turn = .white then 1 else 8
  match st.board.get_piece king_pos with
  | none => .error .attributeError
  | some king =>
    match king.has_moved with
    | none => .error .attributeError
    | some king_moved =>
      if king_moved then .ok (false, false)
      else
        let kr := st.board.get_piece ⟨8, castle_rank⟩
        let qr := st.board.get_piece ⟨1, castle_rank⟩
        match rookDisqualified kr with
        | .error e => .error e
        | .ok d1 =>
          match rookDisqualified qr with
          | .error e => .error e
          | .ok d2 =>
            let king_side₁ := if d1 then false else true
            if d2 then
              if kr = none ∧ qr = none then .ok (false, true)
              else .ok (king_side₁, false)
            else .ok (king_side₁, true)

/-- The square iteration order of `check_game_ended`: files 1..8 outer,
ranks 1..8 inner, each visited as `Position(file, rank)`. -/
def boardSquares : List (Int × Int) :=
  rng8.flatMap (fun file => rng8.map (fun rank => (file, rank)))

/-- The board scan of `GameEngine.check_game_ended`: stop successfully as
soon as a piece of the side to move has a non-empty fully-legal move
list; exceptions from `get_fully_legal_moves` propagate. -/
def scanHasMove (st : EngineState) : List (Int × Int) → Except PyErr Bool
  | [] => .ok false
  | (file, rank) :: rest =>
    match st.board.get_piece ⟨file, rank⟩ with
    | some p =>
      if p.color = st.current_turn then
        match get_fully_legal_moves st p with
        | .error e => .error e
        | .ok l => if l ≠ [] then .ok true else scanHasMove st rest
      else scanHasMove st rest
    | none => scanHasMove st rest

/-- Mirror of `GameEngine.check_game_ended`: a half-move inactivity count
of 50 or more records a draw immediately (returning `False`); otherwise
the board is scanned for any fully-legal move of the side to move, and
the no-move case is split into stalemate (draw, returns `True`) and
checkmate (opponent recorded as winner, returns `False`). -/
def check_game_ended (st : EngineState) : Except PyErr (EngineState × Bool) :=
  if 50 ≤ st.no_action_turns then
    .ok ({ st with game_winner := some .draw }, false)
  else
    match scanHasMove st boardSquares with
    | .error e => .error e
    | .ok true => .ok (st, false)
    | .ok false =>
      if is_in_check st.current_turn st.board
          (if st.current_turn = .white then st.white_king_pos else st.black_king_pos) then
        .ok ({ st with game_winner := some (winnerOf (opposite_color st.current_turn)) }, false)
      else
        .ok ({ st with game_winner := some .draw }, true)

/-- The square `k` steps from `pos` in direction `d`. -/
def stepN (pos : Position) (d : Int × Int) (k : Nat) : Position :=
  ⟨pos.xpos + (k : Int) * d.1, pos.ypos + (k : Int) * d.2⟩

/-- Statement vocabulary for claim C3.  `q` is produced by the sliding
generator for one of the piece's directions exactly when, for some
direction `d` and step count `k ≥ 1`, every square strictly before `q` on
the ray is an on-board empty square and `q` itself is an on-board square
that is empty or holds an enemy piece. -/
def rayReachable (b : Board) (c : Color) (pos q : Position)
    (dirs : List (Int × Int)) : Prop :=
  ∃ d ∈ dirs, ∃ k : Nat, 1 ≤ k ∧ q = stepN pos d k
    ∧ (∀ j : Nat, 1 ≤ j → j < k →
        (stepN pos d j).on_board = true ∧ b.get_piece (stepN pos d j) = none)
    ∧ q.on_board = true
    ∧ (b.get_piece q = none ∨ ∃ p, b.get_piece q = some p ∧ p.color ≠ c)

/-- One ray of the sliding generator, written as plain structural
recursion without the accumulator and without the 64-move debug guard;
the proofs show `slideFrom` produces exactly this list. -/
def rayDesc (b : Board) (c : Color) (d : Int × Int) : Position → Nat → List Position
  | _, 0 => []
  | cur, fuel + 1 =>
    if cur.on_board then
      match b.get_piece cur with
      | none => cur :: rayDesc b c d (cur.add d) fuel
      | some p => if p.color ≠ c then [cur] else []
    else []

/-- Statement vocabulary for claim C4: the first occupied square met by
the `_is_in_check` ray scan in direction `d`, with its step count,
stepping exactly as the scan does. -/
def firstHitAux (b : Board) (d : Int × Int) :
    Nat → Position → Nat → Option (Nat × Piece)
  | 0, _, _ => none
  | fuel + 1, cur, steps =>
    if cur.on_board then
      match b.get_piece (cur.add d) with
      | none => firstHitAux b d fuel (cur.add d) (steps + 1)
      | some p => some (steps + 1, p)
    else none

def firstHitFrom (b : Board) (d : Int × Int) (king_pos : Position) :
    Option (Nat × Piece) :=
  firstHitAux b d 16 king_pos 0

/-- The location-consistency invariant of claim C9: every occupied grid
cell holds a piece whose stored position names exactly that cell. -/
def boardConsistent (b : Board) : Prop :=
  ∀ (y x : Int) (p : Piece), b.grid y x = some p →
    p.position.xpos = x ∧ p.position.ypos = y

instance instDecEqExceptPy {ε α : Type} [DecidableEq ε] [DecidableEq α] :
    DecidableEq (Except ε α) := fun a b =>
  match a, b with
  | .ok x, .ok y =>
    if h : x = y then .isTrue (congrArg Except.ok h)
    else .isFalse (fun hc => h (Except.ok.inj hc))
  | .error x, .error y =>
    if h : x = y then .isTrue (congrArg Except.error h)
    else .isFalse (fun hc => h (Except.error.inj hc))
  | .ok _, .error _ => .isFalse (fun hc => Except.noConfusion hc)
  | .error _, .ok _ => .isFalse (fun hc => Except.noConfusion hc)

/-- A board holding only a white rook on a1, a white king on b1 and a
white pawn on a3: concrete input for exercising
`get_fully_legal_moves` (claim C1). -/
def c1Board : Board := ⟨fun y x =>
  if y = 1 ∧ x = 1 then some (mkPiece .rook .white ⟨1, 1⟩)
  else if y = 1 ∧ x = 2 then some (mkPiece .king .white ⟨2, 1⟩)
  else if y = 3 ∧ x = 1 then some (mkPiece .pawn .white ⟨1, 3⟩)
  else none⟩

def c1State : EngineState :=
  { initialState with board := c1Board, white_king_pos := ⟨2, 1⟩ }

/-- A board holding only a black pawn on a3: concrete input for the
sliding-ray characterization (claim C3). -/
def c3Board : Board := ⟨fun y x =>
  if y = 3 ∧ x = 1 then some (mkPiece .pawn .black ⟨1, 3⟩) else none⟩

/-- A board holding only a white pawn on f6, one upward diagonal step
from e5: concrete input refuting claim C4 as stated. -/
def c4CounterBoard : Board :=
  ⟨fun y x => if y = 6 ∧ x = 6 then some (mkPiece .pawn .white ⟨6, 6⟩) else none⟩

/-- A board holding only a black pawn on f6, one upward diagonal step
from e5: concrete input for the amended claim C4. -/
def c4WitnessBoard : Board :=
  ⟨fun y x => if y = 6 ∧ x = 6 then some (mkPiece .pawn .black ⟨6, 6⟩) else none⟩

/-- White king on e1 with both corner squares a1 and h1 empty (and the
black king on e8): concrete input exposing the queen-side slip of
`_possible_castles` (claim C5). -/
def bothCornersEmptyBoard : Board := ⟨fun y x =>
  if y = 1 ∧ x = 5 then some (mkPiece .king .white ⟨5, 1⟩)
  else if y = 8 ∧ x = 5 then some (mkPiece .king .black ⟨5, 8⟩)
  else none⟩

def bothCornersEmptyState : EngineState :=
  { initialState with board := bothCornersEmptyBoard }

/-- Two adjacent kings and nothing else: concrete input for claim C10. -/
def kingsOnlyBoard : Board := ⟨fun y x =>
  if y = 1 ∧ x = 5 then some (mkPiece .king .white ⟨5, 1⟩)
  else if y = 2 ∧ x = 5 then some (mkPiece .king .black ⟨5, 2⟩)
  else none⟩

/-! ## Lemmas about the sliding-move rays (claim C3) -/

theorem stepN_zero (pos : Position) (d : Int × Int) : stepN pos d 0 = pos := by
  cases pos; simp [stepN]

theorem stepN_shift (pos : Position) (d : Int × Int) (k : Nat) :
    stepN (pos.add d) d k = stepN pos d (k + 1) := by
  cases pos
  simp only [stepN, Position.add, Position.mk.injEq]
  constructor <;> push_cast <;> ring

theorem rayDesc_length (b : Board) (c : Color) (d : Int × Int) :
    ∀ (fuel : Nat) (cur : Position), (rayDesc b c d cur fuel).length ≤ fuel := by
  intro fuel
  induction fuel with
  | zero => intro cur; simp [rayDesc]
  | succ n ih =>
    intro cur
    cases hob : cur.on_board with
    | false => simp [rayDesc, hob]
    | true =>
      cases hgp : b.get_piece cur with
      | none =>
        simp only [rayDesc, hob, if_true, hgp, List.length_cons]
        exact Nat.succ_le_succ (ih (cur.add d))
      | some p =>
        simp only [rayDesc, hob, if_true, hgp]
        split <;> simp

theorem slideFrom_append (b : Board) (c : Color) (d : Int × Int) :
    ∀ (fuel : Nat) (cur : Position) (acc : List Position),
      acc.length + fuel ≤ 65 →
      slideFrom b c d fuel cur acc = acc ++ rayDesc b c d cur fuel := by
  intro fuel
  induction fuel with
  | zero => intro cur acc _; simp [slideFrom, rayDesc]
  | succ n ih =>
    intro cur acc h
    cases hob : cur.on_board with
    | false => simp [slideFrom, rayDesc, hob]
    | true =>
      have hguard : ¬ acc.length > 64 := by omega
      cases hgp : b.get_piece cur with
      | none =>
        simp only [slideFrom, rayDesc, hob, if_true, hguard, if_false, hgp]
        rw [ih (cur.add d) (acc ++ [cur]) (by simp; omega)]
        simp
      | some p =>
        simp only [slideFrom, rayDesc, hob, if_true, hguard, if_false, hgp]
        split <;> simp

theorem rayDesc_mem (b : Board) (c : Color) (d : Int × Int) :
    ∀ (fuel : Nat) (start q : Position),
      q ∈ rayDesc b c d start fuel ↔
        ∃ k : Nat, k < fuel ∧ q = stepN start d k
          ∧ (∀ j : Nat, j < k →
              (stepN start d j).on_board = true ∧ b.get_piece (stepN start d j) = none)
          ∧ q.on_board = true
          ∧ (b.get_piece q = none ∨ ∃ p, b.get_piece q = some p ∧ p.color ≠ c) := by
  intro fuel
  induction fuel with
  | zero =>
    intro start q
    simp [rayDesc]
  | succ n ih =>
    intro start q
    cases hob : start.on_board with
    | false =>
      simp only [rayDesc, hob, Bool.false_eq_true, if_false, List.not_mem_nil, false_iff]
      rintro ⟨k, _, rfl, hj, hq, _⟩
      cases k with
      | zero => rw [stepN_zero] at hq; rw [hob] at hq; cases hq
      | succ m =>
        have h0 := hj 0 (Nat.succ_pos m)
        rw [stepN_zero] at h0
        rw [hob] at h0
        cases h0.1
    | true =>
      cases hgp : b.get_piece start with
      | none =>
        simp only [rayDesc, hob, if_true, hgp, List.mem_cons]
        constructor
        · rintro (hq | hmem)
          · refine ⟨0, Nat.succ_pos n, ?_, fun j hj => absurd hj (Nat.not_lt_zero j), ?_, Or.inl ?_⟩
            · rw [hq, stepN_zero]
            · rw [hq]; exact hob
            · rw [hq]; exact hgp
          · obtain ⟨k, hk, rfl, hj, hq, hocc⟩ := (ih (start.add d) q).mp hmem
            refine ⟨k + 1, by omega, (stepN_shift start d k), ?_, hq, ?_⟩
            · intro j hjlt
              cases j with
              | zero => rw [stepN_zero]; exact ⟨hob, hgp⟩
              | succ i =>
                have := hj i (by omega)
                rwa [stepN_shift] at this
            · exact hocc
        · rintro ⟨k, hk, rfl, hj, hq, hocc⟩
          cases k with
          | zero => left; rw [stepN_zero]
          | succ m =>
            right
            refine (ih (start.add d) _).mpr
              ⟨m, by omega, (stepN_shift start d m).symm, ?_, hq, hocc⟩
            intro j hjlt
            rw [stepN_shift]
            exact hj (j + 1) (by omega)
      | some p =>
        simp only [rayDesc, hob, if_true, hgp]
        split
        · next hcol =>
          simp only [List.mem_singleton]
          constructor
          · intro hq
            refine ⟨0, Nat.succ_pos n, ?_, fun j hj => absurd hj (Nat.not_lt_zero j), ?_,
              Or.inr ⟨p, ?_, hcol⟩⟩
            · rw [hq, stepN_zero]
            · rw [hq]; exact hob
            · rw [hq]; exact hgp
          · rintro ⟨k, hk, rfl, hj, hq, hocc⟩
            cases k with
            | zero => rw [stepN_zero]
            | succ m =>
              have h0 := hj 0 (Nat.succ_pos m)
              rw [stepN_zero] at h0
              rw [hgp] at h0
              cases h0.2
        · next hcol =>
          have hcol' : p.color = c := not_not.mp hcol
          simp only [List.not_mem_nil, false_iff]
          rintro ⟨k, hk, rfl, hj, hq, hocc⟩
          cases k with
          | zero =>
            rw [stepN_zero] at hocc
            rcases hocc with h0 | ⟨p', hp', hc'⟩
            · rw [hgp] at h0; cases h0
            · rw [hgp] at hp'
              cases hp'
              exact hc' hcol'
          | succ m =>
            have h0 := hj 0 (Nat.succ_pos m)
            rw [stepN_zero] at h0
            rw [hgp] at h0
            cases h0.2

theorem ray_step_bound (d : Int × Int)
    (hd : d ∈ rookDirections ∨ d ∈ bishopDirections) (pos : Position) (k : Nat)
    (h1 : (stepN pos d 1).on_board = true) (hk : (stepN pos d k).on_board = true) :
    k ≤ 8 := by
  rcases hd with hd | hd <;>
    simp only [rookDirections, bishopDirections, List.mem_cons,
      List.not_mem_nil, or_false] at hd <;>
    rcases hd with rfl | rfl | rfl | rfl <;>
  · simp only [stepN, Position.on_board, decide_eq_true_eq] at h1 hk
    omega

theorem slideMoves_mem (b : Board) (c : Color) (pos q : Position) :
    ∀ (dirs : List (Int × Int)) (acc : List Position),
      acc.length + 9 * dirs.length ≤ 65 →
      (q ∈ dirs.foldl (fun acc d => slideFrom b c d 9 (pos.add d) acc) acc ↔
        q ∈ acc ∨ ∃ d ∈ dirs, q ∈ rayDesc b c d (pos.add d) 9) := by
  intro dirs
  induction dirs with
  | nil => intro acc _; simp
  | cons d dirs ih =>
    intro acc h
    simp only [List.foldl_cons]
    rw [slideFrom_append b c d 9 (pos.add d) acc (by simp at h; omega)]
    rw [ih (acc ++ rayDesc b c d (pos.add d) 9) (by
      have hlen := rayDesc_length b c d 9 (pos.add d)
      simp only [List.length_append]
      simp at h
      omega)]
    simp only [List.mem_append, List.mem_cons]
    constructor
    · rintro ((hacc | hray) | ⟨d', hd', hm'⟩)
      · exact Or.inl hacc
      · exact Or.inr ⟨d, Or.inl rfl, hray⟩
      · exact Or.inr ⟨d', Or.inr hd', hm'⟩
    · rintro (hacc | ⟨d', rfl | hd'', hm'⟩)
      · exact Or.inl (Or.inl hacc)
      · exact Or.inl (Or.inr hm')
      · exact Or.inr ⟨d', hd'', hm'⟩

theorem ray_mem_from (b : Board) (c : Color) (pos q : Position) (d : Int × Int)
    (hd : d ∈ rookDirections ∨ d ∈ bishopDirections) :
    q ∈ rayDesc b c d (pos.add d) 9 ↔
      ∃ k : Nat, 1 ≤ k ∧ q = stepN pos d k
        ∧ (∀ j : Nat, 1 ≤ j → j < k →
            (stepN pos d j).on_board = true ∧ b.get_piece (stepN pos d j) = none)
        ∧ q.on_board = true
        ∧ (b.get_piece q = none ∨ ∃ p, b.get_piece q = some p ∧ p.color ≠ c) := by
  rw [rayDesc_mem]
  constructor
  · rintro ⟨k, hk9, hqe, hj, hq, hocc⟩
    refine ⟨k + 1, by omega, by rw [hqe, stepN_shift], ?_, hq, hocc⟩
    intro j h1j hjk
    cases j with
    | zero => omega
    | succ i =>
      rw [← stepN_shift]
      exact hj i (by omega)
  · rintro ⟨k, h1k, hqe, hj, hq, hocc⟩
    have hk8 : k ≤ 8 := by
      apply ray_step_bound d hd pos k _ (by rw [← hqe]; exact hq)
      rcases Nat.lt_or_ge 1 k with hlt | hge
      · exact (hj 1 le_rfl hlt).1
      · have hk1 : k = 1 := by omega
        subst hk1
        rw [← hqe]
        exact hq
    refine ⟨k - 1, by omega, ?_, ?_, hq, hocc⟩
    · rw [stepN_shift, Nat.sub_add_cancel h1k]
      exact hqe
    · intro j hj'
      rw [stepN_shift]
      exact hj (j + 1) (by omega) (by omega)

/-- C3: for every board and every rook or bishop, the pseudo-legal move
generator steps outward in each allowed direction and stops at the first
occupied square; a destination is produced exactly when every strictly
earlier square on its ray is an on-board empty square and the destination
itself is on board and either empty or occupied by a piece of the
opposite color (so the first occupied square is included iff it holds an
enemy piece, everything strictly before it is included, and nothing
beyond it is). -/
theorem c3_sliding_rays (b : Board) (c : Color) (pos q : Position) :
    (q ∈ rookMoves b c pos ↔ rayReachable b c pos q rookDirections)
    ∧ (q ∈ bishopMoves b c pos ↔ rayReachable b c pos q bishopDirections) := by
  constructor
  · rw [rookMoves, slideMoves, slideMoves_mem b c pos q rookDirections [] (by decide)]
    simp only [List.not_mem_nil, false_or]
    unfold rayReachable
    constructor
    · rintro ⟨d, hd, hmem⟩
      exact ⟨d, hd, (ray_mem_from b c pos q d (Or.inl hd)).mp hmem⟩
    · rintro ⟨d, hd, hk⟩
      exact ⟨d, hd, (ray_mem_from b c pos q d (Or.inl hd)).mpr hk⟩
  · rw [bishopMoves, slideMoves, slideMoves_mem b c pos q bishopDirections [] (by decide)]
    simp only [List.not_mem_nil, false_or]
    unfold rayReachable
    constructor
    · rintro ⟨d, hd, hmem⟩
      exact ⟨d, hd, (ray_mem_from b c pos q d (Or.inr hd)).mp hmem⟩
    · rintro ⟨d, hd, hk⟩
      exact ⟨d, hd, (ray_mem_from b c pos q d (Or.inr hd)).mpr hk⟩

/-- Witness for C3: on the board holding only a black pawn on a3, the
white sliding generator run from a1 reaches a3 (an enemy-occupied first
blocker), as the characterization predicts. -/
theorem c3_sliding_rays_witness :
    rayReachable c3Board .white ⟨1, 1⟩ ⟨1, 3⟩ rookDirections :=
  (c3_sliding_rays c3Board .white ⟨1, 1⟩ ⟨1, 3⟩).1.mp (by decide)

/-! ## Lemmas about the check-detection ray scan (claims C4, C10) -/

theorem diagonal_not_straight (d : Int × Int) (hd : d ∈ diagonalDirections) :
    d ∉ straightDirections := by
  simp only [diagonalDirections, diagonalDownDirections, diagonalUpDirections,
    List.mem_append, List.mem_cons, List.not_mem_nil, or_false] at hd
  rcases hd with (rfl | rfl) | (rfl | rfl) <;> decide

theorem firstHit_pawn_cases (b : Board) (c : Color) (d : Int × Int)
    (hdiag : d ∈ diagonalDirections) :
    ∀ (fuel : Nat) (cur : Position) (steps : Nat) (s : Nat) (p : Piece),
      firstHitAux b d fuel cur steps = some (s, p) →
      p.kind = .pawn → p.color ≠ c →
      ((s = 1 ∧ ((d ∈ diagonalUpDirections ∧ c = .white)
          ∨ (d ∈ diagonalDownDirections ∧ c = .black)) →
        dirStep b c d fuel cur steps = true)
      ∧ (s ≠ 1 → dirStep b c d fuel cur steps = false)) := by
  intro fuel
  induction fuel with
  | zero =>
    intro cur steps s p h
    simp [firstHitAux] at h
  | succ n ih =>
    intro cur steps s p h hkind hcol
    cases hob : cur.on_board with
    | false => simp [firstHitAux, hob] at h
    | true =>
      cases hgp : b.get_piece (cur.add d) with
      | none =>
        simp only [firstHitAux, hob, if_true, hgp] at h
        have hstep := ih (cur.add d) (steps + 1) s p h hkind hcol
        constructor
        · intro hs
          simp only [dirStep, hob, if_true, hgp]
          exact hstep.1 hs
        · intro hs
          simp only [dirStep, hob, if_true, hgp]
          exact hstep.2 hs
      | some p0 =>
        simp only [firstHitAux, hob, if_true, hgp, Option.some.injEq,
          Prod.mk.injEq] at h
        obtain ⟨hs, rfl⟩ := h
        constructor
        · rintro ⟨hs1, hqual⟩
          simp only [dirStep, hob, if_true, hgp]
          rw [if_neg hcol, if_neg (diagonal_not_straight d hdiag),
            if_neg (by simp [hkind]), if_pos ⟨hkind, by omega⟩, if_pos hqual]
        · intro hsne
          simp only [dirStep, hob, if_true, hgp]
          rw [if_neg hcol, if_neg (diagonal_not_straight d hdiag),
            if_neg (by simp [hkind]),
            if_neg (by rintro ⟨_, h2⟩; exact hsne (by omega))]

/-- C4 (amended): when the first non-empty square met by the check
scan along a diagonal direction from the king square holds an enemy
pawn, a threat is reported from that direction if the step count is
exactly 1 and the direction is the one the pawn actually attacks
through — an enemy BLACK pawn threatens a white king via the two upward
diagonals from the king square, an enemy WHITE pawn threatens a black
king via the two downward diagonals — and no threat is reported from
that direction when the step count exceeds 1.  (A step-1 pawn in a
non-matching direction does not stop the scan, so a sliding attacker
behind it may still be reported; the claim's original color/direction
pairing is refuted by `c4_pawn_check_direction_counterexample`.) -/
theorem c4_pawn_check_direction (b : Board) (c : Color) (king_pos : Position)
    (d : Int × Int) (s : Nat) (p : Piece)
    (hdiag : d ∈ diagonalDirections)
    (hfh : firstHitFrom b d king_pos = some (s, p))
    (hkind : p.kind = .pawn) (hcol : p.color ≠ c) :
    (s = 1 ∧ ((d ∈ diagonalUpDirections ∧ c = .white)
        ∨ (d ∈ diagonalDownDirections ∧ c = .black)) →
      dirStep b c d 16 king_pos 0 = true)
    ∧ (s ≠ 1 → dirStep b c d 16 king_pos 0 = false) :=
  firstHit_pawn_cases b c d hdiag 16 king_pos 0 s p hfh hkind hcol

/-- Counterexample to C4 as stated: on the board holding only a WHITE
pawn on f6, the first non-empty square along the upward diagonal (1, 1)
from e5 is that enemy white pawn at step count 1, yet the scan for the
black king reports no threat from that direction (and `is_in_check` is
false overall) — the enemy white pawn does NOT threaten via the upward
diagonals; in the code the upward diagonals pair with a WHITE king
(black attacker) instead. -/
theorem c4_pawn_check_direction_counterexample :
    (1, 1) ∈ diagonalUpDirections
    ∧ firstHitFrom c4CounterBoard (1, 1) ⟨5, 5⟩ = some (1, mkPiece .pawn .white ⟨6, 6⟩)
    ∧ (mkPiece .pawn .white ⟨6, 6⟩).kind = .pawn
    ∧ (mkPiece .pawn .white ⟨6, 6⟩).color ≠ Color.black
    ∧ dirStep c4CounterBoard .black (1, 1) 16 ⟨5, 5⟩ 0 = false
    ∧ is_in_check .black c4CounterBoard ⟨5, 5⟩ = false := by
  decide

/-- Witness for C4 (amended): a black pawn on f6, one upward diagonal
step from e5, makes the scan for the white king report a threat. -/
theorem c4_pawn_check_direction_witness :
    dirStep c4WitnessBoard .white (1, 1) 16 ⟨5, 5⟩ 0 = true :=
  (c4_pawn_check_direction c4WitnessBoard .white ⟨5, 5⟩ (1, 1) 1
      (mkPiece .pawn .black ⟨6, 6⟩) (by decide) (by decide) (by decide)
      (by decide)).1
    ⟨rfl, Or.inl ⟨by decide, rfl⟩⟩

theorem dirStep_kings_false (b : Board) (c : Color)
    (h : ∀ (pos : Position) (p : Piece),
      b.get_piece pos = some p → p.color ≠ c → p.kind = .king)
    (d : Int × Int) :
    ∀ (fuel : Nat) (cur : Position) (steps : Nat),
      dirStep b c d fuel cur steps = false := by
  intro fuel
  induction fuel with
  | zero => intro cur steps; simp [dirStep]
  | succ n ih =>
    intro cur steps
    cases hob : cur.on_board with
    | false => simp [dirStep, hob]
    | true =>
      cases hgp : b.get_piece (cur.add d) with
      | none =>
        simp only [dirStep, hob, if_true, hgp]
        exact ih (cur.add d) (steps + 1)
      | some p =>
        simp only [dirStep, hob, if_true, hgp]
        by_cases hcol : p.color = c
        · rw [if_pos hcol]
        · have hking : p.kind = .king := h (cur.add d) p hgp hcol
          rw [if_neg hcol]
          by_cases hstraight : d ∈ straightDirections
          · rw [if_pos hstraight]
            simp [hking]
          · rw [if_neg hstraight, if_neg (by simp [hking]),
              if_neg (by rintro ⟨h1, _⟩; rw [hking] at h1; cases h1)]

/-- C10: the check-detection algorithm never reports a threat from an
enemy king.  On any board whose enemy pieces are all kings (even a king
on a square adjacent to the scanned king square), `is_in_check` returns
false: the knight-offset scan only matches knights, and an enemy king
met first on a ray matches none of the threatening kinds and blocks the
direction. -/
theorem c10_no_king_threat (b : Board) (c : Color) (king_pos : Position)
    (h : ∀ (pos : Position) (p : Piece),
      b.get_piece pos = some p → p.color ≠ c → p.kind = .king) :
    is_in_check c b king_pos = false := by
  unfold is_in_check
  rw [Bool.or_eq_false_iff]
  constructor
  · rw [List.any_eq_false]
    intro d _
    cases hgp : b.get_piece (king_pos.add d) with
    | none => simp [hgp]
    | some p =>
      simp only [hgp, decide_eq_true_eq]
      rintro ⟨hk, hc⟩
      have hkk := h (king_pos.add d) p hgp hc
      rw [hkk] at hk
      cases hk
  · rw [List.any_eq_false]
    intro d _
    rw [dirStep_kings_false b c h d 16 king_pos 0]
    simp

/-- Witness for C10: with only the two kings on the board, adjacent on
e1 and e2, the white king is not reported in check. -/
theorem c10_no_king_threat_witness :
    is_in_check .white kingsOnlyBoard ⟨5, 1⟩ = false :=
  c10_no_king_threat kingsOnlyBoard .white ⟨5, 1⟩ (by
    intro pos p hp _
    by_cases hob : pos.on_board
    · simp only [kingsOnlyBoard, Board.get_piece, hob, if_true] at hp
      by_cases h1 : pos.ypos = 1 ∧ pos.xpos = 5
      · rw [if_pos h1] at hp
        simp only [Option.some.injEq] at hp
        subst hp
        rfl
      · rw [if_neg h1] at hp
        by_cases h2 : pos.ypos = 2 ∧ pos.xpos = 5
        · rw [if_pos h2] at hp
          simp only [Option.some.injEq] at hp
          subst hp
          rfl
        · rw [if_neg h2] at hp
          cases hp
    · simp [Board.get_piece, hob] at hp)

/-! ## Lemmas for claim C1 (king safety of fully legal moves) -/

theorem flmLoop_sound (st : EngineState) (p : Piece) :
    ∀ (ms l : List Position), flmLoop st p ms = .ok l →
      ∀ m ∈ l, self_check_after st p m = some false := by
  intro ms
  induction ms with
  | nil =>
    intro l h m hm
    simp only [flmLoop, Except.ok.injEq] at h
    subst h
    cases hm
  | cons m0 rest ih =>
    intro l h m hm
    simp only [flmLoop] at h
    cases hdc : st.board.deep_copy with
    | error e => simp only [hdc] at h; cases h
    | ok hb =>
      simp only [hdc] at h
      cases hpc : hb.get_piece p.position with
      | none => simp only [hpc] at h; cases h
      | some pc =>
        simp only [hpc] at h
        cases hrest : flmLoop st p rest with
        | error e => simp only [hrest] at h; cases h
        | ok rest' =>
          simp only [hrest, Except.ok.injEq] at h
          subst h
          by_cases hchk :
            is_in_check p.color (hb.move_piece pc.position m0) (kingSqFor st p m0) = true
          · rw [if_pos hchk] at hm
            exact ih rest' hrest m hm
          · rw [if_neg hchk] at hm
            rcases List.mem_cons.mp hm with rfl | hm'
            · simp only [self_check_after, hdc, hpc, Option.some.injEq]
              exact Bool.eq_false_iff.mpr hchk
            · exact ih rest' hrest m hm'

/-- C1: for every engine state and piece, every destination `m` in an
`Except.ok` result of `get_fully_legal_moves` satisfies the king-safety
test: applying `m` to a deep copy of the live board and then calling
`is_in_check` for the mover's color — at the destination square when the
moved piece is a king, at the cached king location for that color
otherwise — yields false. -/
theorem c1_fully_legal_moves_safe (st : EngineState) (p : Piece) (l : List Position)
    (h : get_fully_legal_moves st p = .ok l) :
    ∀ m ∈ l, self_check_after st p m = some false := by
  cases hps : pseudoMoves p st.board with
  | none => simp only [get_fully_legal_moves, hps] at h; cases h
  | some pseudo =>
    simp only [get_fully_legal_moves, hps] at h
    exact flmLoop_sound st p pseudo l h

/-- Witness for C1: on the three-white-piece board `c1Board`, the rook
on a1 has exactly the fully legal move a2, and that move passes the
post-move self-check. -/
theorem c1_fully_legal_moves_safe_witness :
    self_check_after c1State (mkPiece .rook .white ⟨1, 1⟩) ⟨1, 2⟩ = some false :=
  c1_fully_legal_moves_safe c1State (mkPiece .rook .white ⟨1, 1⟩) [⟨1, 2⟩]
    (by decide) ⟨1, 2⟩ (by decide)

/-! ## Lemmas for claim C9 (location consistency) -/

theorem move_piece_consistent (b : Board) (h : boardConsistent b)
    (s e : Position) : boardConsistent (b.move_piece s e) := by
  unfold Board.move_piece
  cases hg : b.get_piece s with
  | none => exact h
  | some p =>
    intro y x q hq
    simp only [Board.set_cell] at hq
    by_cases h1 : y = e.ypos ∧ x = e.xpos
    · rw [if_pos h1] at hq
      simp only [Option.some.injEq] at hq
      subst hq
      exact ⟨h1.2.symm, h1.1.symm⟩
    · rw [if_neg h1] at hq
      by_cases h2 : y = s.ypos ∧ x = s.xpos
      · rw [if_pos h2] at hq
        cases hq
      · rw [if_neg h2] at hq
        exact h y x q hq

theorem castle_consistent (b : Board) (h : boardConsistent b)
    (ks ke : Position) : boardConsistent (b.perform_castle ks ke) := by
  unfold Board.perform_castle
  split
  · exact move_piece_consistent _ (move_piece_consistent b h ks ke) _ _
  · exact move_piece_consistent _ (move_piece_consistent b h ks ke) _ _

theorem promote_consistent (b : Board) (h : boardConsistent b)
    (pos : Position) (k : PieceKind) (b' : Board)
    (hp : b.promote_pawn pos k = .ok b') : boardConsistent b' := by
  unfold Board.promote_pawn at hp
  cases hg : b.get_piece pos with
  | none => simp only [hg] at hp; cases hp
  | some p =>
    simp only [hg] at hp
    by_cases hk : p.kind = .pawn
    · rw [if_pos hk] at hp
      simp only [Except.ok.injEq] at hp
      subst hp
      intro y x q hq
      simp only [Board.set_cell] at hq
      by_cases h1 : y = pos.ypos ∧ x = pos.xpos
      · rw [if_pos h1] at hq
        simp only [Option.some.injEq] at hq
        subst hq
        exact ⟨h1.2.symm, h1.1.symm⟩
      · rw [if_neg h1] at hq
        exact h y x q hq
    · rw [if_neg hk] at hp
      cases hp

/-- C9: every Board mutation operation — plain move, castling,
promotion — preserves the location-consistency invariant: afterwards
every occupied grid cell holds a piece whose stored position equals that
cell's coordinates. -/
theorem c9_location_consistency (b : Board) (h : boardConsistent b) :
    (∀ s e, boardConsistent (b.move_piece s e))
    ∧ (∀ ks ke, boardConsistent (b.perform_castle ks ke))
    ∧ (∀ pos k b', b.promote_pawn pos k = .ok b' → boardConsistent b') :=
  ⟨fun s e => move_piece_consistent b h s e,
   fun ks ke => castle_consistent b h ks ke,
   fun pos k b' hp => promote_consistent b h pos k b' hp⟩

theorem backRank_consistent (c : Color) (y x : Int) (p : Piece)
    (h : backRank c y x = some p) :
    p.position.xpos = x ∧ p.position.ypos = y := by
  unfold backRank at h
  split_ifs at h <;>
    simp only [Option.some.injEq] at h <;>
    (subst h; exact ⟨rfl, rfl⟩)

theorem initialBoard_consistent : boardConsistent initialBoard := by
  intro y x p h
  simp only [initialBoard, initialGrid] at h
  split_ifs at h <;>
    first
      | (simp only [Option.some.injEq] at h; subst h; exact ⟨rfl, rfl⟩)
      | exact backRank_consistent _ y x p h

/-- Witness for C9: the initial board is location-consistent and stays
so after the double pawn step e2-e4. -/
theorem c9_location_consistency_witness :
    boardConsistent (initialBoard.move_piece ⟨5, 2⟩ ⟨5, 4⟩) :=
  (c9_location_consistency initialBoard initialBoard_consistent).1 ⟨5, 2⟩ ⟨5, 4⟩

/-- C6: whenever the half-move inactivity counter has reached 50,
`check_game_ended` records a draw as the game result immediately — for
every board, every side to move and every cached king location — and
returns before the board is ever scanned for legal moves (the scan,
which could itself raise, is never entered). -/
theorem c6_inactivity_draw (st : EngineState) (h : 50 ≤ st.no_action_turns) :
    check_game_ended st = .ok ({ st with game_winner := some .draw }, false) := by
  unfold check_game_ended
  rw [if_pos h]

/-- Witness for C6: a state with counter 50 on the full initial board is
recorded as drawn. -/
theorem c6_inactivity_draw_witness :
    check_game_ended { initialState with no_action_turns := 50 }
      = .ok ({ initialState with no_action_turns := 50, game_winner := some .draw },
          false) :=
  c6_inactivity_draw { initialState with no_action_turns := 50 } (by decide)

/-- C7: `promote_pawn` signals the invalid-operation error whenever the
occupant of the square is not a pawn (including an empty or off-board
square), raising before any grid assignment, so the board is untouched;
on a pawn it stores a newly constructed piece of the chosen kind with the
pawn's color, the same square and `has_moved = true`, leaving every other
square unchanged. -/
theorem c7_promote_pawn (b : Board) (pos : Position) (k : PieceKind) :
    ((∀ p, b.get_piece pos = some p → p.kind ≠ PieceKind.pawn) →
        b.promote_pawn pos k = .error .promotionError)
    ∧ (∀ p, b.get_piece pos = some p → p.kind = PieceKind.pawn →
        b.promote_pawn pos k
            = .ok (b.set_cell pos (some ⟨k, p.color, pos, some true⟩))
          ∧ (b.set_cell pos (some ⟨k, p.color, pos, some true⟩)).get_piece pos
              = some ⟨k, p.color, pos, some true⟩
          ∧ ∀ q, q ≠ pos →
              (b.set_cell pos (some ⟨k, p.color, pos, some true⟩)).get_piece q
                = b.get_piece q) := by
  constructor
  · intro hnp
    cases hg : b.get_piece pos with
    | none => unfold Board.promote_pawn; simp only [hg]
    | some p =>
      unfold Board.promote_pawn
      simp only [hg]
      rw [if_neg (hnp p hg)]
  · intro p hg hk
    have hob : pos.on_board = true := by
      cases hcase : pos.on_board with
      | true => rfl
      | false =>
        unfold Board.get_piece at hg
        rw [hcase] at hg
        simp at hg
    refine ⟨?_, ?_, ?_⟩
    · unfold Board.promote_pawn
      simp only [hg]
      rw [if_pos hk]
      rfl
    · simp [Board.get_piece, Board.set_cell, hob]
    · intro q hq
      have hne : ¬ (q.ypos = pos.ypos ∧ q.xpos = pos.xpos) := by
        rintro ⟨hy, hx⟩
        apply hq
        cases q
        cases pos
        simp_all
      unfold Board.get_piece Board.set_cell
      by_cases hqb : q.on_board
      · simp only [hqb, if_true]
        rw [if_neg hne]
      · simp [hqb]

/-- Witness for C7: promoting the empty square e5 of the initial board
raises; promoting the pawn on e2 to a queen yields the expected board. -/
theorem c7_promote_pawn_witness :
    initialBoard.promote_pawn ⟨5, 5⟩ .queen = .error .promotionError
    ∧ initialBoard.promote_pawn ⟨5, 2⟩ .queen
        = .ok (initialBoard.set_cell ⟨5, 2⟩
            (some ⟨.queen, .white, ⟨5, 2⟩, some true⟩)) := by
  constructor
  · exact (c7_promote_pawn initialBoard ⟨5, 5⟩ .queen).1 (by
      intro p hp
      have hnone : initialBoard.get_piece ⟨5, 5⟩ = none := by decide
      rw [hnone] at hp
      cases hp)
  · exact ((c7_promote_pawn initialBoard ⟨5, 2⟩ .queen).2
      (mkPiece .pawn .white ⟨5, 2⟩) (by decide) rfl).1

/-- C2 evaluation: in the initial setup position the white rook on a1
does have an empty fully-legal-move list, but the white pawn on e2 and
the white knight on b1 do NOT get the claimed move sets {e3, e4} and
{a3, c3}: their `get_legal_moves` bodies are unimplemented stubs that
return Python `None`, so `get_fully_legal_moves` raises `TypeError` when
it iterates the pseudo-legal list. -/
theorem c2_initial_moves_eval :
    initialBoard.get_piece ⟨1, 1⟩ = some (mkPiece .rook .white ⟨1, 1⟩)
    ∧ get_fully_legal_moves initialState (mkPiece .rook .white ⟨1, 1⟩) = .ok []
    ∧ initialBoard.get_piece ⟨5, 2⟩ = some (mkPiece .pawn .white ⟨5, 2⟩)
    ∧ get_fully_legal_moves initialState (mkPiece .pawn .white ⟨5, 2⟩)
        = .error .typeError
    ∧ initialBoard.get_piece ⟨2, 1⟩ = some (mkPiece .knight .white ⟨2, 1⟩)
    ∧ get_fully_legal_moves initialState (mkPiece .knight .white ⟨2, 1⟩)
        = .error .typeError := by
  decide

/-- C5 evaluation: in the initial position (unmoved king and rooks, with
f1 and g1 OCCUPIED) `_possible_castles` reports both castles available,
confirming that emptiness and safety of the intervening squares are not
required; but with BOTH corner squares a1 and h1 empty and the king
unmoved it reports (false, true): the queen-side flag stays true even
though the a1 rook is absent, because the loop's `is`-identity test also
matches the second iteration when both corners are Python `None`. -/
theorem c5_possible_castles_eval :
    initialBoard.get_piece ⟨6, 1⟩ = some (mkPiece .bishop .white ⟨6, 1⟩)
    ∧ initialBoard.get_piece ⟨7, 1⟩ = some (mkPiece .knight .white ⟨7, 1⟩)
    ∧ possible_castles initialState = .ok (true, true)
    ∧ bothCornersEmptyState.board.get_piece ⟨5, 1⟩
        = some (mkPiece .king .white ⟨5, 1⟩)
    ∧ bothCornersEmptyState.board.get_piece ⟨1, 1⟩ = none
    ∧ bothCornersEmptyState.board.get_piece ⟨8, 1⟩ = none
    ∧ possible_castles bothCornersEmptyState = .ok (false, true) := by
  decide

/-- C8 evaluation: `deep_copy` of the initial board raises
`AttributeError` instead of producing a clone, because `_copy_piece`
reads `has_moved` on pieces (bishops, knights, queens that have never
moved) whose constructors never set that attribute — here the white
bishop on c1. -/
theorem c8_deep_copy_eval :
    initialBoard.get_piece ⟨3, 1⟩ = some (mkPiece .bishop .white ⟨3, 1⟩)
    ∧ (mkPiece .bishop .white ⟨3, 1⟩).has_moved = none
    ∧ initialBoard.deep_copy = .error .attributeError :=
  ⟨by decide, by decide, rfl⟩
